import Mathlib

/-!
Shallow embedding of the ImmoEliza data pipeline (`immoelizaData.py`).

Python strings are modelled as `List Char`; pandas/numpy cell values as the
inductive `Val` (a finite float / int is a rational `num`, a string is `str`,
and `nan` stands for float NaN as well as Python `None`, both of which pandas
renders as a missing cell).  Exceptions escaping a pandas operation are
modelled with `Except`: `PdErr.keyError c` is a `KeyError` naming column `c`
(raised by `df[c]` when the column is absent) and `PdErr.valueError` is a
`ValueError` (raised e.g. by `int(float('nan'))` or `int("abc")`).

A DataFrame is modelled column-major as an association list from column name
to the list of cell values of that column (`Frame`); row `i` of the frame is
the family of entries at index `i` of each column.  `df[c] = v` replaces the
column in place when `c` is already present and appends it otherwise, exactly
as pandas column assignment does.
-/

deriving instance DecidableEq for Except

namespace ImmoEliza

/-- A pandas/numpy scalar cell: a finite number, a Python string (as a
character list), or a missing value (float NaN / None). -/
inductive Val where
  | num (q : ℚ)
  | str (s : List Char)
  | nan
  deriving DecidableEq

/-- Whitespace for Python's `str.strip()` (the ASCII part, which is all the
source data can contain). -/
def pyIsSpace (c : Char) : Bool :=
  c == ' ' || c == '\t' || c == '\n' || c == '\r'

/-- `x.split(",")[0]`: the characters of `x` before the first comma
(the whole string when there is no comma). -/
def pySplitHead (s : List Char) : List Char :=
  s.takeWhile (fun c => c ≠ ',')

/-- Python `str.strip()`: drop leading and trailing whitespace. -/
def pyStrip (s : List Char) : List Char :=
  ((s.dropWhile pyIsSpace).reverse.dropWhile pyIsSpace).reverse

/-- Value of a decimal digit character. -/
def charDigit (c : Char) : ℕ := c.toNat - 48

/-- Parse a non-empty all-digit string as a natural number. -/
def pyParseNatDigits (s : List Char) : Option ℕ :=
  if s ≠ [] ∧ s.all (fun c => c.isDigit) then
    some (s.foldl (fun n c => n * 10 + charDigit c) 0)
  else
    none

/-- Python `int(s)` on a string: strip whitespace, allow an optional sign,
then require a non-empty run of digits; any other string raises
`ValueError`, modelled as `none`. -/
def pyParseInt (s : List Char) : Option ℤ :=
  match pyStrip s with
  | '-' :: t => (pyParseNatDigits t).map (fun n => -(n : ℤ))
  | '+' :: t => (pyParseNatDigits t).map (fun n => (n : ℤ))
  | t => (pyParseNatDigits t).map (fun n => (n : ℤ))

/-- Python `int(x)` on a finite float: truncation toward zero. -/
def pyTrunc (q : ℚ) : ℤ := Int.tdiv q.num q.den

/-- Python `str(n)` for an integer `n`, via the decimal digits of `|n|`. -/
def pyIntStr (n : ℤ) : List Char :=
  if n < 0 then '-' :: Nat.toDigits 10 n.natAbs else Nat.toDigits 10 n.natAbs

/-- The cell transformation of `PostalCodeFormatter.format_postal_codes`
(`immoelizaData.py` lines 95–99):

    lambda x: int(x.split(",")[0].strip()) if isinstance(x, str) else (
        int(x) if isinstance(x, (int, float)) and not np.isnan(x) else np.nan)

`.ok (some n)` is the integer result, `.ok none` is `np.nan` (missing), and
`.error ()` is the `ValueError` raised by `int(...)` on an unparseable
string, which `Series.apply` propagates to the caller. -/
def format_postal_cell : Val → Except Unit (Option ℤ)
  | .str s =>
      match pyParseInt (pyStrip (pySplitHead s)) with
      | some n => .ok (some n)
      | none => .error ()
  | .num q => .ok (some (pyTrunc q))
  | .nan => .ok none

/-- An exception escaping a pandas operation. -/
inductive PdErr where
  | keyError (col : String)
  | valueError
  deriving DecidableEq

/-- The INS-to-postal mapping (`Step_0_Code_INS_to_Postal.json`): an ordered
association of area (INS) codes to the list of postal-code strings belonging
to the area, in JSON/dict iteration order.  JSON object keys are stringified
integers; they are held here already as the integers `int(ins_code)`
returns. -/
abbrev InsMapping := List (ℤ × List (List Char))

/-- The scan loop of `PostalDataProcessor._get_ins_code` (lines 36–39):
walk the mapping entries in order and return the first INS code whose
postal-code list contains the given string, `none` when no entry matches. -/
def scanIns : InsMapping → List Char → Option ℤ
  | [], _ => none
  | (ins, plist) :: rest, s =>
      if s ∈ plist then some ins else scanIns rest s

/-- `str(int(postal_code))` for one raw postal-code cell: on NaN, `int`
raises `ValueError`; on a string it parses (raising `ValueError` when
unparseable); on a number it truncates, and `str` renders the decimal
digits. -/
def cellIntStr : Val → Except PdErr (List Char)
  | .nan => .error .valueError
  | .num q => .ok (pyIntStr (pyTrunc q))
  | .str s =>
      match pyParseInt s with
      | some n => .ok (pyIntStr n)
      | none => .error .valueError

/-- `PostalDataProcessor._get_ins_code` (lines 34–39) as applied to one raw
postal-code cell.  The expression `str(int(postal_code))` sits *inside* the
loop body `for ins_code, postal_list in self.ins_to_postal.items(): ...`, so
it is (re-)evaluated once per entry and never evaluated when the mapping is
empty: an empty mapping returns `None` even for a NaN or unparseable-string
cell, while with at least one entry a NaN/unparseable cell raises
`ValueError` on the first iteration.  Otherwise the scan returns the first
INS code whose postal-code list contains the decimal string, `None` when no
entry matches. -/
def get_ins_code (m : InsMapping) (v : Val) : Except PdErr (Option ℤ) :=
  match m with
  | [] => .ok none
  | e :: rest =>
      match cellIntStr v with
      | .error err => .error err
      | .ok s => if s ∈ e.2 then .ok (some e.1) else get_ins_code rest v

/-- One row of the demographic table (`Step_1_Postal_Data.xlsx`), keyed by
`Code_INS`; each field may itself be a missing cell. -/
structure DemRec where
  population : Val
  wealth : Val
  density : Val
  deriving DecidableEq

/-- The demographic store `postal_data_dict` built by
`_create_postal_data_dict` (line 32): association list keyed by INS code. -/
abbrev DemTable := List (ℤ × DemRec)

/-- Dictionary lookup `postal_data_dict.get(ins_code, {})` on the cell value
of the `INS_Code` column.  A numeric cell equal to an integer key matches
(Python numeric keys compare across int/float); `nan` or an absent key
yields the empty dict, whose `.get` returns `None` — a missing cell. -/
def demLookup (d : DemTable) : Val → Option DemRec
  | .num q => (d.find? (fun e => (e.1 : ℚ) == q)).map (fun e => e.2)
  | _ => none

/-- `PostalDataProcessor._get_population` (lines 41–43) on a cell. -/
def get_population (d : DemTable) (v : Val) : Val :=
  match demLookup d v with
  | some r => r.population
  | none => .nan

/-- `PostalDataProcessor._get_wealth_index` (lines 45–47) on a cell. -/
def get_wealth_index (d : DemTable) (v : Val) : Val :=
  match demLookup d v with
  | some r => r.wealth
  | none => .nan

/-- `PostalDataProcessor._get_density` (lines 49–51) on a cell. -/
def get_density (d : DemTable) (v : Val) : Val :=
  match demLookup d v with
  | some r => r.density
  | none => .nan

/-- The cell of the `INS_Code` column produced for a given raw postal cell:
the matched INS code as a number, or a missing cell when no entry matches.
(Total companion of `get_ins_code`, meaningful on its success domain.) -/
def ins_cell (m : InsMapping) (v : Val) : Val :=
  match get_ins_code m v with
  | .ok (some i) => .num i
  | .ok none => .nan
  | .error _ => .nan

/-- A pandas DataFrame, column-major. -/
abbrev Frame := List (String × List Val)

/-- `df[c]`: the values of column `c`, `none` when absent (pandas raises
`KeyError c`). -/
def lookupCol (f : Frame) (c : String) : Option (List Val) :=
  (f.find? (fun e => e.1 == c)).map (fun e => e.2)

/-- `df[c] = v`: replace column `c` in place when present, else append it. -/
def setCol : Frame → String → List Val → Frame
  | [], c, v => [(c, v)]
  | (c', v') :: rest, c, v =>
      if c' = c then (c, v) :: rest else (c', v') :: setCol rest c v

/-- `PostalDataProcessor.enrich_property_data` (lines 53–68):

    self.property_data['INS_Code'] = self.property_data['postal_code'].apply(self._get_ins_code)
    self.property_data['Population'] = self.property_data['INS_Code'].apply(self._get_population)
    self.property_data['Wealth_Index'] = self.property_data['INS_Code'].apply(self._get_wealth_index)
    self.property_data['Density'] = self.property_data['INS_Code'].apply(self._get_density)

`df['postal_code']` raises `KeyError` when the column is absent, before any
row is processed.  `Series.apply` evaluates `_get_ins_code` on every cell
(NaN included) and propagates the first exception; on success the `INS_Code`
column holds the scan results, and the three demographic columns are mapped
from it (`setCol` makes the freshly written `INS_Code` column exactly the
`mapM` result, so the subsequent applies read that list). -/
def enrich_property_data (m : InsMapping) (d : DemTable) (pd : Frame) :
    Except PdErr Frame :=
  match lookupCol pd "postal_code" with
  | none => .error (.keyError "postal_code")
  | some postal =>
      match postal.mapM (get_ins_code m) with
      | .error e => .error e
      | .ok _ =>
          let ins := postal.map (ins_cell m)
          let pd1 := setCol pd "INS_Code" ins
          let pd2 := setCol pd1 "Population" (ins.map (get_population d))
          let pd3 := setCol pd2 "Wealth_Index" (ins.map (get_wealth_index d))
          let pd4 := setCol pd3 "Density" (ins.map (get_density d))
          .ok pd4

/-! ### Name-frequency data and the top-names aggregator

`PropertyDataMerger.merge_with_top_names` (lines 118–149) reads the names
table (columns `postal_code`, `TX_FST_NAME`, `MS_FREQUENCY`), selects the
five most frequent names per postal code, renders them as one string per
postal code, and left-joins the result onto the property table.  In
`__main__` (lines 162–165), the names table is first passed through
`PostalCodeFormatter.format_postal_codes` and only then fed to the merge, so
the grouping below operates on the formatted (normalized) postal codes. -/

/-- A raw row of the names table, before postal-code formatting: the postal
cell can be a string, a number or NaN. -/
structure RawNameRecord where
  postal : Val
  name : List Char
  freq : ℤ
  deriving DecidableEq

/-- A row of the names table after `format_postal_codes`: the postal code is
an integer or missing (`none`, pandas NaN, dropped by `groupby`). -/
structure NameRecord where
  postal : Option ℤ
  name : List Char
  freq : ℤ
  deriving DecidableEq

/-- `format_postal_codes` on one row of the names table (`__main__` line
164): the postal cell goes through `format_postal_cell`; a `ValueError`
propagates out of `Series.apply`. -/
def formatNameRecord (r : RawNameRecord) : Except Unit NameRecord :=
  match format_postal_cell r.postal with
  | .ok p => .ok ⟨p, r.name, r.freq⟩
  | .error e => .error e

/-- The descending-frequency relation used to model
`DataFrame.nlargest(5, "MS_FREQUENCY")`. -/
def freqGe (a b : NameRecord) : Prop := b.freq ≤ a.freq

instance : DecidableRel freqGe := fun a b => inferInstanceAs (Decidable (b.freq ≤ a.freq))

instance : IsTotal NameRecord freqGe := ⟨fun a b => le_total b.freq a.freq⟩

instance : IsTrans NameRecord freqGe := ⟨fun _ _ _ h1 h2 => le_trans h2 h1⟩

/-- Stable descending sort by frequency.  `List.insertionSort` with `freqGe`
is stable: records with equal frequency keep their original relative order,
matching pandas `nlargest(..., keep='first')`, which orders by the column
descending and prioritises earlier rows among ties. -/
def sortByFreq (l : List NameRecord) : List NameRecord :=
  List.insertionSort freqGe l

/-- `group.nlargest(5, "MS_FREQUENCY")` generalised to any bound `n`:
the first `n` rows of the stable descending sort. -/
def pyNlargest (n : ℕ) (l : List NameRecord) : List NameRecord :=
  (sortByFreq l).take n

/-- The distinct grouping keys of `df.groupby("postal_code")`, in the sorted
ascending order pandas emits groups in; NaN keys are dropped by `groupby`. -/
def groupKeys (rs : List NameRecord) : List ℤ :=
  List.insertionSort (· ≤ ·) (rs.filterMap (fun r => r.postal)).dedup

/-- The group of records carrying postal code `k`, in original row order. -/
def groupOf (rs : List NameRecord) (k : ℤ) : List NameRecord :=
  rs.filter (fun r => r.postal == some k)

/-- The `top_names` frame (lines 132–136): per postal code, the five most
frequent records, concatenated group by group in key order. -/
def top_names (rs : List NameRecord) : List NameRecord :=
  (groupKeys rs).flatMap (fun k => pyNlargest 5 (groupOf rs k))

/-- `", ".join(...)`: join with a separator. -/
def joinSep (sep : List Char) : List (List Char) → List Char
  | [] => []
  | [x] => x
  | x :: xs => x ++ sep ++ joinSep sep xs

/-- `f"{row['TX_FST_NAME']} ({row['MS_FREQUENCY']})"` for one record. -/
def renderRecord (r : NameRecord) : List Char :=
  r.name ++ " (".data ++ pyIntStr r.freq ++ ")".data

/-- The string rendered for one group: lines 139–141. -/
def renderGroup (g : List NameRecord) : List Char :=
  joinSep ", ".data (g.map renderRecord)

/-- The `top_names_pivot` frame (lines 139–143): group `top_names` again by
postal code and render each group as one comma-and-space-joined string. -/
def top_names_pivot (rs : List NameRecord) : List (ℤ × List Char) :=
  (groupKeys (top_names rs)).map
    (fun k => (k, renderGroup (groupOf (top_names rs) k)))

/-- Steps 2 and 3 of `__main__` on the names side (lines 162–171): format
the postal codes of the raw names table, then aggregate.  A `ValueError`
raised while formatting aborts the pipeline. -/
def namesPipeline (raw : List RawNameRecord) :
    Except Unit (List (ℤ × List Char)) :=
  (raw.mapM formatNameRecord).map top_names_pivot

/-! ### The merge stage -/

/-- One row of the property table as read back for the merge (line 128),
with its join key and the remaining cells. -/
structure PropRow where
  postal : Val
  rest : List Val
  deriving DecidableEq

/-- Whether a property-row join key equals an integer summary key under
pandas merge semantics: only a numeric cell can match, NaN never does. -/
def keyMatches (v : Val) (k : ℤ) : Bool :=
  match v with
  | .num q => (k : ℚ) == q
  | _ => false

/-- `df_properties.merge(top_names_pivot, on="postal_code", how="left")`
(line 146): every left row, in order, paired with each matching summary in
summary order; a row with no match is kept once with a missing summary. -/
def leftMerge (props : List PropRow) (piv : List (ℤ × List Char)) :
    List (PropRow × Option (List Char)) :=
  props.flatMap (fun p =>
    let ms := piv.filter (fun e => keyMatches p.postal e.1)
    if ms.isEmpty then [(p, none)] else ms.map (fun e => (p, some e.2)))

/-- The tie-break scenario of the specification: three records for postal
code 1000, with `Ben` and `Cara` tied at frequency 80. -/
def tieScenario : List NameRecord :=
  [⟨some 1000, "Anna".data, 50⟩, ⟨some 1000, "Ben".data, 80⟩,
   ⟨some 1000, "Cara".data, 80⟩]

/-! ### Auxiliary lemmas -/

lemma setCol_of_fresh (c : String) (v : List Val) :
    ∀ (f : Frame), (∀ e ∈ f, e.1 ≠ c) → setCol f c v = f ++ [(c, v)]
  | [], _ => rfl
  | (c', v') :: rest, h => by
      have hc : c' ≠ c := h (c', v') (List.mem_cons_self _ _)
      simp only [setCol, if_neg hc, List.cons_append, List.cons.injEq, true_and]
      exact setCol_of_fresh c v rest (fun e he => h e (List.mem_cons_of_mem _ he))

/-- `mapM` over `Except` fails with the uniform error value as soon as some
element fails, provided every failure of `f` carries that value. -/
lemma mapM_error_uniform {α β : Type} {f : α → Except PdErr β} {e₀ : PdErr}
    (hf : ∀ a, f a = .error e₀ ∨ ∃ b, f a = .ok b) :
    ∀ {l : List α}, (∃ a ∈ l, f a = .error e₀) → l.mapM f = .error e₀
  | a :: t, h => by
      rw [List.mapM_cons]
      rcases hf a with ha | ⟨b, hb⟩
      · rw [ha]; rfl
      · rw [hb]
        rcases h with ⟨x, hx, hxe⟩
        rcases List.mem_cons.mp hx with rfl | hxt
        · rw [hxe] at hb; cases hb
        · have : t.mapM f = .error e₀ := mapM_error_uniform hf ⟨x, hxt, hxe⟩
          rw [show ∀ r : Except PdErr (List β), (Except.ok b >>= fun b =>
              r >>= fun bs => pure (b :: bs)) = (r >>= fun bs => pure (b :: bs))
              from fun r => rfl, this]
          rfl

/-- Every failure of `str(int(postal_code))` on a cell is a `ValueError`. -/
lemma cellIntStr_error_cases (v : Val) :
    cellIntStr v = .error .valueError ∨ ∃ s, cellIntStr v = .ok s := by
  cases v with
  | nan => exact .inl rfl
  | num q => exact .inr ⟨_, rfl⟩
  | str s =>
      cases h : pyParseInt s with
      | none => exact .inl (by simp [cellIntStr, h])
      | some n => exact .inr ⟨pyIntStr n, by simp [cellIntStr, h]⟩

/-- Every failure of `_get_ins_code` on a cell is a `ValueError`. -/
lemma get_ins_code_error_cases (m : InsMapping) (v : Val) :
    get_ins_code m v = .error .valueError ∨ ∃ b, get_ins_code m v = .ok b := by
  induction m with
  | nil => exact .inr ⟨none, rfl⟩
  | cons e rest ih =>
      rcases cellIntStr_error_cases v with h | ⟨s, hs⟩
      · exact .inl (by simp [get_ins_code, h])
      · by_cases hmem : s ∈ e.2
        · exact .inr ⟨some e.1, by simp [get_ins_code, hs, hmem]⟩
        · rcases ih with h' | ⟨b, hb⟩
          · exact .inl (by simp [get_ins_code, hs, hmem, h'])
          · exact .inr ⟨b, by simp [get_ins_code, hs, hmem, hb]⟩

/-- On a numeric cell, `_get_ins_code` never raises and the loop is exactly
the first-match scan on the decimal string of the truncated value. -/
lemma get_ins_code_num (m : InsMapping) (q : ℚ) :
    get_ins_code m (Val.num q) = .ok (scanIns m (pyIntStr (pyTrunc q))) := by
  induction m with
  | nil => rfl
  | cons e rest ih =>
      obtain ⟨i, pl⟩ := e
      by_cases h : pyIntStr (pyTrunc q) ∈ pl
      · simp [get_ins_code, cellIntStr, scanIns, h]
      · simp [get_ins_code, cellIntStr, scanIns, h, ih]

/-- Truncation toward zero agrees with the floor on non-negative rationals. -/
lemma pyTrunc_eq_floor {q : ℚ} (h : 0 ≤ q) : pyTrunc q = ⌊q⌋ := by
  rw [pyTrunc, Rat.floor_def]
  exact Int.tdiv_eq_ediv (Rat.num_nonneg.mpr h) (by positivity)

/-- Truncation toward zero agrees with the ceiling on negative rationals. -/
lemma pyTrunc_eq_ceil {q : ℚ} (h : q < 0) : pyTrunc q = ⌈q⌉ := by
  have hq : 0 ≤ -q := by linarith
  have h1 : pyTrunc q = -pyTrunc (-q) := by
    rw [pyTrunc, pyTrunc, Rat.num_neg_eq_neg_num, Rat.den_neg_eq_den, Int.neg_tdiv, neg_neg]
  rw [h1, pyTrunc_eq_floor hq, Int.floor_neg, neg_neg]

/-- Truncating an integer rational gives back the integer. -/
lemma pyTrunc_intCast (p : ℤ) : pyTrunc (p : ℚ) = p := by
  rw [pyTrunc, Rat.intCast_num, Rat.intCast_den]
  simp [Int.tdiv_one]

/-- `x.split(",")[0]` of a string whose first comma separates `a` from
`rest` is exactly `a`. -/
lemma pySplitHead_append (a rest : List Char) (h : ',' ∉ a) :
    pySplitHead (a ++ ',' :: rest) = a := by
  induction a with
  | nil => simp [pySplitHead]
  | cons c t ih =>
      have hc : c ≠ ',' := fun hc => h (hc ▸ List.mem_cons_self c t)
      have ht : ',' ∉ t := fun hm => h (List.mem_cons_of_mem _ hm)
      simpa [pySplitHead, List.takeWhile_cons, hc] using ih ht

/-- The resolver scan is first-match search over the mapping entries. -/
lemma scanIns_eq_find? (m : InsMapping) (s : List Char) :
    scanIns m s = (m.find? (fun e => decide (s ∈ e.2))).map Prod.fst := by
  induction m with
  | nil => rfl
  | cons e rest ih =>
      obtain ⟨i, pl⟩ := e
      by_cases h : s ∈ pl
      · simp [scanIns, h, List.find?]
      · simp [scanIns, h, List.find?, ih]

/-! ### Claim C1 — totality of the postal-code normalizer -/

/-- C1, counterexample.  The claim states that the normalizer is total over
strings, well-formed or malformed, and that a parse failure on a comma-free
string collapses to missing.  On the comma-free string `"abc"` the code
evaluates `int("abc")`, which raises `ValueError` out of `Series.apply`
instead of producing a missing value. -/
theorem format_raises_on_malformed :
    format_postal_cell (Val.str "abc".data) = .error () := by decide

/-- C1, amended.  The normalizer is total on numeric inputs and on NaN
(returning an integer, resp. missing), and on every string whose first
comma-segment strips and parses as an integer; but on a string whose first
comma-segment does not parse, it raises a `ValueError` (it does not collapse
the failure to missing). -/
theorem format_totality_amended :
    (∀ q : ℚ, format_postal_cell (Val.num q) = .ok (some (pyTrunc q)))
    ∧ format_postal_cell Val.nan = .ok none
    ∧ (∀ (s : List Char) (n : ℤ), pyParseInt (pyStrip (pySplitHead s)) = some n →
        format_postal_cell (Val.str s) = .ok (some n))
    ∧ (∀ s : List Char, pyParseInt (pyStrip (pySplitHead s)) = none →
        format_postal_cell (Val.str s) = .error ()) := by
  refine ⟨fun q => rfl, rfl, fun s n h => ?_, fun s h => ?_⟩ <;>
    simp [format_postal_cell, h]

/-- C1, witness for the amended theorem. -/
theorem format_totality_witness :
    pyParseInt (pyStrip (pySplitHead "1000".data)) = some 1000
    ∧ format_postal_cell (Val.str "1000".data) = .ok (some 1000)
    ∧ pyParseInt (pyStrip (pySplitHead "abc".data)) = none
    ∧ format_postal_cell (Val.str "abc".data) = .error ()
    ∧ format_postal_cell (Val.num 5) = .ok (some (pyTrunc 5)) :=
  ⟨by decide, format_totality_amended.2.2.1 _ 1000 (by decide),
   by decide, format_totality_amended.2.2.2 _ (by decide),
   format_totality_amended.1 5⟩

/-! ### Claim C2 — handling of missing postal codes in enrichment -/

/-- C2, counterexample.  The claim states that a listing with a missing
(NaN) postal code gets a missing area code without invoking resolution and
that missing data never causes an error.  In the code,
`self.property_data['postal_code'].apply(self._get_ins_code)` calls
`_get_ins_code` on the NaN cell as well, and — for any mapping with at least
one entry, as in every real run — `str(int(postal_code))` in the loop body
raises `ValueError: cannot convert float NaN to integer` on the first
iteration, aborting enrichment. -/
theorem enrich_errors_on_nan_postal :
    enrich_property_data [(100, ["1000".data])] []
        [("postal_code", [Val.nan])]
      = .error .valueError := by decide

/-- C2, amended.  Resolution *is* invoked on missing postal codes, and for
every non-empty mapping it raises a `ValueError` (evaluated in the loop
body), so enrichment of any table containing a NaN postal code aborts with
that error instead of degrading to missing; only the degenerate empty
mapping skips the loop body and returns missing without error.  The
demographic half of the claim does hold: looking up a missing area code
yields all three demographic fields missing. -/
theorem missing_handling_amended :
    (∀ v : Val, get_ins_code [] v = .ok none)
    ∧ (∀ (e : ℤ × List (List Char)) (rest : InsMapping),
        get_ins_code (e :: rest) Val.nan = .error .valueError)
    ∧ (∀ d : DemTable, get_population d Val.nan = Val.nan
        ∧ get_wealth_index d Val.nan = Val.nan
        ∧ get_density d Val.nan = Val.nan)
    ∧ (∀ (e : ℤ × List (List Char)) (rest : InsMapping) (d : DemTable)
        (pd : Frame) (postal : List Val),
        lookupCol pd "postal_code" = some postal → Val.nan ∈ postal →
        enrich_property_data (e :: rest) d pd = .error .valueError) := by
  refine ⟨fun v => rfl, fun e rest => rfl, fun d => ⟨rfl, rfl, rfl⟩,
    fun e rest d pd postal hcol hmem => ?_⟩
  have herr : postal.mapM (get_ins_code (e :: rest)) = .error .valueError :=
    mapM_error_uniform (get_ins_code_error_cases (e :: rest))
      ⟨Val.nan, hmem, rfl⟩
  have herr' : List.mapM.loop (get_ins_code (e :: rest)) postal []
      = .error .valueError := herr
  simp [enrich_property_data, hcol, herr']

/-- C2, witness for the amended theorem. -/
theorem missing_handling_witness :
    lookupCol [("postal_code", [Val.nan])] "postal_code" = some [Val.nan]
    ∧ Val.nan ∈ [Val.nan]
    ∧ enrich_property_data [(100, ["1000".data])] []
        [("postal_code", [Val.nan])]
        = .error .valueError :=
  ⟨rfl, List.mem_singleton.mpr rfl,
   missing_handling_amended.2.2.2 (100, ["1000".data]) [] [] _ [Val.nan] rfl
     (List.mem_singleton.mpr rfl)⟩

/-! ### Claim C9 — missing `postal_code` column aborts enrichment -/

/-- C9, confirmed.  When the listings frame has no `postal_code` column, the
first access `self.property_data['postal_code']` raises `KeyError` naming
that column — before any row is processed and before any derived column is
assigned, so no output frame is produced and the input is untouched. -/
theorem enrich_missing_column_aborts (m : InsMapping) (d : DemTable)
    (pd : Frame) (h : lookupCol pd "postal_code" = none) :
    enrich_property_data m d pd = .error (.keyError "postal_code") := by
  simp [enrich_property_data, h]

/-- C9, witness. -/
theorem enrich_missing_column_witness :
    lookupCol [("price", [Val.num 1])] "postal_code" = none
    ∧ enrich_property_data [] [] [("price", [Val.num 1])]
        = .error (.keyError "postal_code") :=
  ⟨rfl, enrich_missing_column_aborts [] [] _ rfl⟩

/-! ### Claim C5 — resolver is a first-match scan on string representation -/

/-- C5, confirmed.  For a non-missing (integer) postal code `p`, the
resolver tests membership of the decimal string of `p` in each area's
postal-code list, scanning the mapping's entries in iteration order, and
returns the first area code whose list contains it — `find?` over the
entries — and missing (`none`) when no entry matches. -/
theorem resolve_first_match (m : InsMapping) (p : ℤ) :
    get_ins_code m (Val.num (p : ℚ)) =
      .ok ((m.find? (fun e => decide (pyIntStr p ∈ e.2))).map Prod.fst) := by
  rw [get_ins_code_num, pyTrunc_intCast, scanIns_eq_find?]

/-! ### Claim C7 — the three normalization cases -/

/-- C7, confirmed.  A string with a comma is split at the first comma, the
leading segment is stripped and parsed as an integer and the remaining
segments are discarded (the spec scenario `"9999, "` normalizes to `9999`);
a numeric non-NaN cell is truncated toward zero to an integer (floor for
non-negative, ceiling for negative values); NaN normalizes to missing. -/
theorem format_cases (a rest : List Char) (n : ℤ) (q : ℚ)
    (hc : ',' ∉ a) (hp : pyParseInt (pyStrip a) = some n) :
    format_postal_cell (Val.str (a ++ ',' :: rest)) = .ok (some n)
    ∧ format_postal_cell (Val.str "9999, ".data) = .ok (some 9999)
    ∧ (0 ≤ q → format_postal_cell (Val.num q) = .ok (some ⌊q⌋))
    ∧ (q < 0 → format_postal_cell (Val.num q) = .ok (some ⌈q⌉))
    ∧ format_postal_cell Val.nan = .ok none := by
  refine ⟨?_, by decide, fun h0 => ?_, fun h0 => ?_, rfl⟩
  · have hs : pyStrip (pySplitHead (a ++ ',' :: rest)) = pyStrip a := by
      rw [pySplitHead_append a rest hc]
    simp [format_postal_cell, hs, hp]
  · simp [format_postal_cell, pyTrunc_eq_floor h0]
  · simp [format_postal_cell, pyTrunc_eq_ceil h0]

/-- C7, witness. -/
theorem format_cases_witness :
    ',' ∉ "9999".data
    ∧ pyParseInt (pyStrip "9999".data) = some 9999
    ∧ format_postal_cell (Val.str ("9999".data ++ ',' :: " ".data))
        = .ok (some 9999)
    ∧ (0 ≤ (7 : ℚ) → format_postal_cell (Val.num 7) = .ok (some ⌊(7 : ℚ)⌋)) :=
  ⟨by decide, by decide,
   (format_cases "9999".data " ".data 9999 7 (by decide) (by decide)).1,
   (format_cases "9999".data " ".data 9999 7 (by decide) (by decide)).2.2.1⟩

/-! ### Claim C3 — enrichment as a pure column-appending map -/

/-- C3, counterexample.  The claim says enrichment leaves every original
column's values unchanged and only appends the four derived columns, for
every input table.  pandas column assignment overwrites an existing column
in place, so a listings table that already carries a `Population` column has
that column's values replaced (here `[7]` becomes `[NaN]`), and only three
columns are appended. -/
theorem enrich_overwrites_existing_population :
    enrich_property_data [] []
        [("postal_code", [Val.num 1000]), ("Population", [Val.num 7])]
      = .ok [("postal_code", [Val.num 1000]), ("Population", [Val.nan]),
             ("INS_Code", [Val.nan]), ("Wealth_Index", [Val.nan]),
             ("Density", [Val.nan])] := by decide

/-- C3, amended.  Whenever enrichment returns a frame and none of the four
derived column names is already a column of the input, the output is the
input frame with exactly the four derived columns appended, in order
`INS_Code`, `Population`, `Wealth_Index`, `Density`: every original column
(hence every row, in order) is unchanged, no rows are dropped or reordered
(each derived column has one entry per input row, entry `i` derived from
postal cell `i`), and the input is a prefix of the output.  On the error
path no frame is produced at all, so the input is never partially
enriched. -/
theorem enrich_appends_amended (m : InsMapping) (d : DemTable)
    (pd out : Frame) (postal : List Val)
    (hcol : lookupCol pd "postal_code" = some postal)
    (hfresh : pd.all (fun e => e.1 != "INS_Code" && e.1 != "Population"
        && e.1 != "Wealth_Index" && e.1 != "Density") = true)
    (hok : enrich_property_data m d pd = .ok out) :
    out = pd ++ [("INS_Code", postal.map (ins_cell m)),
                 ("Population", (postal.map (ins_cell m)).map (get_population d)),
                 ("Wealth_Index", (postal.map (ins_cell m)).map (get_wealth_index d)),
                 ("Density", (postal.map (ins_cell m)).map (get_density d))]
    ∧ out.map Prod.fst
        = pd.map Prod.fst ++ ["INS_Code", "Population", "Wealth_Index", "Density"]
    ∧ pd <+: out
    ∧ (postal.map (ins_cell m)).length = postal.length := by
  have hf : ∀ e ∈ pd, e.1 ≠ "INS_Code" ∧ e.1 ≠ "Population"
      ∧ e.1 ≠ "Wealth_Index" ∧ e.1 ≠ "Density" := by
    intro e he
    have h := List.all_eq_true.mp hfresh e he
    simp only [Bool.and_eq_true, bne_iff_ne, ne_eq] at h
    exact ⟨h.1.1.1, h.1.1.2, h.1.2, h.2⟩
  simp only [enrich_property_data, hcol] at hok
  cases hmap : postal.mapM (get_ins_code m) with
  | error e =>
      rw [hmap] at hok
      cases hok
  | ok vs =>
      rw [hmap] at hok
      injection hok with hout
      have h1 : setCol pd "INS_Code" (postal.map (ins_cell m))
          = pd ++ [("INS_Code", postal.map (ins_cell m))] :=
        setCol_of_fresh _ _ pd (fun e he => (hf e he).1)
      have h2 : setCol (pd ++ [("INS_Code", postal.map (ins_cell m))])
            "Population" ((postal.map (ins_cell m)).map (get_population d))
          = (pd ++ [("INS_Code", postal.map (ins_cell m))])
            ++ [("Population", (postal.map (ins_cell m)).map (get_population d))] := by
        refine setCol_of_fresh _ _ _ (fun e he => ?_)
        rcases List.mem_append.mp he with h | h
        · exact (hf e h).2.1
        · rw [List.mem_singleton.mp h]; simp
      have h3 : setCol ((pd ++ [("INS_Code", postal.map (ins_cell m))])
              ++ [("Population", (postal.map (ins_cell m)).map (get_population d))])
            "Wealth_Index" ((postal.map (ins_cell m)).map (get_wealth_index d))
          = ((pd ++ [("INS_Code", postal.map (ins_cell m))])
              ++ [("Population", (postal.map (ins_cell m)).map (get_population d))])
            ++ [("Wealth_Index", (postal.map (ins_cell m)).map (get_wealth_index d))] := by
        refine setCol_of_fresh _ _ _ (fun e he => ?_)
        rcases List.mem_append.mp he with h | h
        · rcases List.mem_append.mp h with h' | h'
          · exact (hf e h').2.2.1
          · rw [List.mem_singleton.mp h']; simp
        · rw [List.mem_singleton.mp h]; simp
      have h4 : setCol (((pd ++ [("INS_Code", postal.map (ins_cell m))])
              ++ [("Population", (postal.map (ins_cell m)).map (get_population d))])
              ++ [("Wealth_Index", (postal.map (ins_cell m)).map (get_wealth_index d))])
            "Density" ((postal.map (ins_cell m)).map (get_density d))
          = (((pd ++ [("INS_Code", postal.map (ins_cell m))])
              ++ [("Population", (postal.map (ins_cell m)).map (get_population d))])
              ++ [("Wealth_Index", (postal.map (ins_cell m)).map (get_wealth_index d))])
            ++ [("Density", (postal.map (ins_cell m)).map (get_density d))] := by
        refine setCol_of_fresh _ _ _ (fun e he => ?_)
        rcases List.mem_append.mp he with h | h
        · rcases List.mem_append.mp h with h' | h'
          · rcases List.mem_append.mp h' with h'' | h''
            · exact (hf e h'').2.2.2
            · rw [List.mem_singleton.mp h'']; simp
          · rw [List.mem_singleton.mp h']; simp
        · rw [List.mem_singleton.mp h]; simp
      rw [h1, h2, h3, h4] at hout
      have hout' : out = pd ++ [("INS_Code", postal.map (ins_cell m)),
          ("Population", (postal.map (ins_cell m)).map (get_population d)),
          ("Wealth_Index", (postal.map (ins_cell m)).map (get_wealth_index d)),
          ("Density", (postal.map (ins_cell m)).map (get_density d))] := by
        rw [← hout]; simp [List.append_assoc]
      refine ⟨hout', ?_, ?_, by simp⟩
      · rw [hout']; simp [List.map_append]
      · rw [hout']; exact ⟨_, rfl⟩

/-- C3, witness for the amended theorem, on the specification's scenario
(mapping `{100: ["1000"]}`, demographic record for area 100). -/
theorem enrich_appends_witness :
    lookupCol [("postal_code", [Val.num 1000]), ("price", [Val.num 5])]
        "postal_code" = some [Val.num 1000]
    ∧ ([("postal_code", [Val.num 1000]), ("price", [Val.num 5])] : Frame).all
        (fun e => e.1 != "INS_Code" && e.1 != "Population"
          && e.1 != "Wealth_Index" && e.1 != "Density") = true
    ∧ enrich_property_data [(100, ["1000".data])]
        [(100, ⟨Val.num 5000, Val.num (mkRat 6 5), Val.num 300⟩)]
        [("postal_code", [Val.num 1000]), ("price", [Val.num 5])]
        = .ok [("postal_code", [Val.num 1000]), ("price", [Val.num 5]),
               ("INS_Code", [Val.num 100]), ("Population", [Val.num 5000]),
               ("Wealth_Index", [Val.num (mkRat 6 5)]),
               ("Density", [Val.num 300])]
    ∧ [("postal_code", [Val.num 1000]), ("price", [Val.num 5]),
       ("INS_Code", [Val.num 100]), ("Population", [Val.num 5000]),
       ("Wealth_Index", [Val.num (mkRat 6 5)]), ("Density", [Val.num 300])]
      = [("postal_code", [Val.num 1000]), ("price", [Val.num 5])]
        ++ [("INS_Code", [Val.num 1000].map (ins_cell [(100, ["1000".data])])),
            ("Population", ([Val.num 1000].map (ins_cell [(100, ["1000".data])])).map
              (get_population [(100, ⟨Val.num 5000, Val.num (mkRat 6 5), Val.num 300⟩)])),
            ("Wealth_Index", ([Val.num 1000].map (ins_cell [(100, ["1000".data])])).map
              (get_wealth_index [(100, ⟨Val.num 5000, Val.num (mkRat 6 5), Val.num 300⟩)])),
            ("Density", ([Val.num 1000].map (ins_cell [(100, ["1000".data])])).map
              (get_density [(100, ⟨Val.num 5000, Val.num (mkRat 6 5), Val.num 300⟩)]))] :=
  ⟨by decide, by decide, by decide,
   (enrich_appends_amended _ _ _ _ [Val.num 1000] (by decide) (by decide)
     (by decide)).1⟩

/-! ### Aggregator lemmas -/

lemma mem_groupKeys {rs : List NameRecord} {k : ℤ} :
    k ∈ groupKeys rs ↔ ∃ r ∈ rs, r.postal = some k := by
  rw [groupKeys, List.mem_insertionSort, List.mem_dedup, List.mem_filterMap]

lemma groupKeys_nodup (rs : List NameRecord) : (groupKeys rs).Nodup :=
  (List.perm_insertionSort _ _).symm.nodup (List.nodup_dedup _)

lemma groupKeys_sorted (rs : List NameRecord) :
    (groupKeys rs).Sorted (· ≤ ·) :=
  List.sorted_insertionSort _ _

lemma sortByFreq_perm (l : List NameRecord) : List.Perm (sortByFreq l) l :=
  List.perm_insertionSort _ _

lemma sortByFreq_sorted (l : List NameRecord) : (sortByFreq l).Sorted freqGe :=
  List.sorted_insertionSort _ _

lemma mem_groupOf {rs : List NameRecord} {k : ℤ} {r : NameRecord} :
    r ∈ groupOf rs k ↔ r ∈ rs ∧ r.postal = some k := by
  simp [groupOf]

/-- Members of the per-group top-5 selection carry the group's key. -/
lemma mem_pyNlargest_groupOf {rs : List NameRecord} {k : ℤ} {r : NameRecord}
    (h : r ∈ pyNlargest 5 (groupOf rs k)) : r ∈ rs ∧ r.postal = some k :=
  mem_groupOf.mp
    ((sortByFreq_perm (groupOf rs k)).mem_iff.mp ((List.take_sublist _ _).mem h))

lemma pyNlargest_length (n : ℕ) (l : List NameRecord) :
    (pyNlargest n l).length = min n l.length := by
  simp [pyNlargest, sortByFreq]

/-- A nonempty group has a nonempty top-5 selection. -/
lemma pyNlargest_ne_nil {l : List NameRecord} (h : l ≠ []) :
    pyNlargest 5 l ≠ [] := by
  have hl : 0 < l.length := List.length_pos.mpr h
  have : 0 < (pyNlargest 5 l).length := by
    rw [pyNlargest_length]; omega
  exact List.length_pos.mp this

/-- Key stability lemma: inserting into a descending-sorted list, the
records of any fixed frequency `f` are preserved in order, the new record
(when it has frequency `f`) coming first. -/
lemma filter_freq_orderedInsert (a : NameRecord) (f : ℤ) :
    ∀ (s : List NameRecord), s.Sorted freqGe →
      (List.orderedInsert freqGe a s).filter (fun r => r.freq == f)
        = if a.freq == f then a :: s.filter (fun r => r.freq == f)
          else s.filter (fun r => r.freq == f)
  | [], _ => by simp [List.orderedInsert, List.filter_cons]
  | b :: t, hs => by
      rw [List.orderedInsert]
      by_cases hab : freqGe a b
      · rw [if_pos hab, List.filter_cons, List.filter_cons]
      · rw [if_neg hab, List.filter_cons,
          filter_freq_orderedInsert a f t hs.of_cons, List.filter_cons]
        by_cases ha : a.freq = f
        · have hb : ¬ b.freq = f := by
            intro hb
            exact hab (le_of_eq (hb.trans ha.symm))
          simp [ha, hb]
        · simp [ha]

/-- Stability of the descending sort: restricted to any fixed frequency,
the sorted list reads exactly as the input (pandas `keep='first'`). -/
lemma filter_freq_sortByFreq (f : ℤ) :
    ∀ (l : List NameRecord),
      (sortByFreq l).filter (fun r => r.freq == f)
        = l.filter (fun r => r.freq == f)
  | [] => rfl
  | a :: t => by
      rw [show sortByFreq (a :: t)
            = List.orderedInsert freqGe a (sortByFreq t) from rfl,
        filter_freq_orderedInsert a f _ (sortByFreq_sorted t),
        filter_freq_sortByFreq f t, List.filter_cons]

lemma filter_flatMap_groups (p : NameRecord → Bool) (g : ℤ → List NameRecord) :
    ∀ (ks : List ℤ),
      (ks.flatMap g).filter p = ks.flatMap (fun k => (g k).filter p)
  | [] => rfl
  | k :: t => by
      rw [List.flatMap_cons, List.flatMap_cons, List.filter_append,
        filter_flatMap_groups p g t]

lemma filter_key_pyNlargest_self (rs : List NameRecord) (k : ℤ) :
    (pyNlargest 5 (groupOf rs k)).filter (fun r => r.postal == some k)
      = pyNlargest 5 (groupOf rs k) :=
  List.filter_eq_self.mpr
    (fun r hr => by simp [(mem_pyNlargest_groupOf hr).2])

lemma filter_key_pyNlargest_ne (rs : List NameRecord) {k k' : ℤ}
    (h : k' ≠ k) :
    (pyNlargest 5 (groupOf rs k')).filter (fun r => r.postal == some k)
      = [] :=
  List.filter_eq_nil_iff.mpr
    (fun r hr => by simp [(mem_pyNlargest_groupOf hr).2, h])

lemma flatMap_filter_key (rs : List NameRecord) (k : ℤ) :
    ∀ (ks : List ℤ), ks.Nodup →
      ks.flatMap (fun k' =>
          (pyNlargest 5 (groupOf rs k')).filter (fun r => r.postal == some k))
        = if k ∈ ks then pyNlargest 5 (groupOf rs k) else []
  | [], _ => by simp
  | k' :: t, hn => by
      rw [List.flatMap_cons, flatMap_filter_key rs k t (List.nodup_cons.mp hn).2]
      by_cases hk : k' = k
      · subst hk
        rw [filter_key_pyNlargest_self]
        have hnt : k' ∉ t := (List.nodup_cons.mp hn).1
        simp [hnt]
      · rw [filter_key_pyNlargest_ne rs hk]
        simp [List.mem_cons, Ne.symm hk]

/-- Regrouping `top_names` by postal code recovers exactly the per-group
top-5 selections: the two `groupby`s of the source compose as expected. -/
lemma groupOf_top_names (rs : List NameRecord) (k : ℤ) :
    groupOf (top_names rs) k = pyNlargest 5 (groupOf rs k) := by
  rw [top_names, groupOf, filter_flatMap_groups,
    flatMap_filter_key rs k _ (groupKeys_nodup rs)]
  by_cases hk : k ∈ groupKeys rs
  · rw [if_pos hk]
  · rw [if_neg hk]
    have hg : groupOf rs k = [] :=
      List.filter_eq_nil_iff.mpr (fun r hr hb =>
        hk (mem_groupKeys.mpr ⟨r, hr, by simpa using hb⟩))
    rw [hg]
    rfl

lemma exists_postal_top_names {rs : List NameRecord} {k : ℤ} :
    (∃ r ∈ top_names rs, r.postal = some k) ↔ ∃ r ∈ rs, r.postal = some k := by
  constructor
  · rintro ⟨r, hr, hp⟩
    obtain ⟨k', _, hr'⟩ := List.mem_flatMap.mp hr
    exact ⟨r, (mem_pyNlargest_groupOf hr').1, hp⟩
  · rintro ⟨r, hr, hp⟩
    have hk : k ∈ groupKeys rs := mem_groupKeys.mpr ⟨r, hr, hp⟩
    have hne : groupOf rs k ≠ [] := fun h0 => by
      have hmem : r ∈ groupOf rs k := mem_groupOf.mpr ⟨hr, hp⟩
      rw [h0] at hmem
      cases hmem
    obtain ⟨r', hr'⟩ := List.exists_mem_of_ne_nil _ (pyNlargest_ne_nil hne)
    exact ⟨r', List.mem_flatMap.mpr ⟨k, hk, hr'⟩,
      (mem_pyNlargest_groupOf hr').2⟩

lemma groupKeys_top_names (rs : List NameRecord) :
    groupKeys (top_names rs) = groupKeys rs := by
  refine List.eq_of_perm_of_sorted ?_ (groupKeys_sorted _) (groupKeys_sorted rs)
  refine (List.perm_ext_iff_of_nodup (groupKeys_nodup _) (groupKeys_nodup rs)).mpr
    (fun k => ?_)
  rw [mem_groupKeys, mem_groupKeys]
  exact exists_postal_top_names

/-- The pivot in one-pass form: one entry per key of the original records,
rendering the per-group top-5 selection. -/
lemma top_names_pivot_eq (rs : List NameRecord) :
    top_names_pivot rs
      = (groupKeys rs).map
          (fun k => (k, renderGroup (pyNlargest 5 (groupOf rs k)))) := by
  rw [top_names_pivot, groupKeys_top_names]
  have hfun : (fun k => (k, renderGroup (groupOf (top_names rs) k)))
      = fun k => (k, renderGroup (pyNlargest 5 (groupOf rs k))) :=
    funext (fun k => by rw [groupOf_top_names])
  rw [hfun]

lemma top_names_pivot_keys (rs : List NameRecord) :
    (top_names_pivot rs).map Prod.fst = groupKeys rs := by
  rw [top_names_pivot_eq, List.map_map]
  have hid : (Prod.fst ∘ fun k : ℤ =>
      (k, renderGroup (pyNlargest 5 (groupOf rs k)))) = id :=
    funext (fun k => rfl)
  rw [hid, List.map_id]

/-! ### Merge lemmas -/

lemma keyMatches_inj {v : Val} {k k' : ℤ} (h : keyMatches v k = true)
    (h' : keyMatches v k' = true) : k = k' := by
  cases v with
  | num q =>
      simp only [keyMatches, beq_iff_eq] at h h'
      exact_mod_cast h.trans h'.symm
  | str s => simp [keyMatches] at h
  | nan => simp [keyMatches] at h

lemma leftMerge_cons (p : PropRow) (t : List PropRow)
    (piv : List (ℤ × List Char)) :
    leftMerge (p :: t) piv
      = (let ms := piv.filter (fun e => keyMatches p.postal e.1)
         if ms.isEmpty then [(p, none)] else ms.map (fun e => (p, some e.2)))
        ++ leftMerge t piv := by
  rw [leftMerge, leftMerge, List.flatMap_cons]

/-- With pairwise-distinct keys, at most one pivot entry matches a row, so
the filter collapses to first-match search. -/
lemma filter_keyMatches_nodup (v : Val) :
    ∀ (piv : List (ℤ × List Char)), (piv.map Prod.fst).Nodup →
      piv.filter (fun e => keyMatches v e.1)
        = (piv.find? (fun e => keyMatches v e.1)).toList
  | [], _ => rfl
  | e :: t, hn => by
      have hn' : (t.map Prod.fst).Nodup := (List.nodup_cons.mp (by simpa using hn)).2
      have hfst : e.1 ∉ t.map Prod.fst :=
        (List.nodup_cons.mp (by simpa using hn)).1
      cases he : keyMatches v e.1 with
      | true =>
          have hfind : (e :: t).find? (fun e' => keyMatches v e'.1) = some e :=
            List.find?_cons_of_pos _ he
          rw [List.filter_cons, if_pos (by simp [he]), hfind]
          have ht : t.filter (fun e' => keyMatches v e'.1) = [] :=
            List.filter_eq_nil_iff.mpr (fun e' he' hb => by
              have hee : e'.1 = e.1 := keyMatches_inj (by simpa using hb) he
              exact hfst (hee ▸ List.mem_map_of_mem Prod.fst he'))
          rw [ht]
          rfl
      | false =>
          have hfind : (e :: t).find? (fun e' => keyMatches v e'.1)
              = t.find? (fun e' => keyMatches v e'.1) :=
            List.find?_cons_of_neg _ (by simp [he])
          rw [List.filter_cons, if_neg (by simp [he]), hfind]
          exact filter_keyMatches_nodup v t hn'

/-! ### Claim C4 — the merge preserves listing cardinality -/

/-- C4, confirmed.  For every listings table `L` and every summary produced
by the aggregator, the left join keeps each listing row exactly once, in
order: the result is precisely `L` with, per row, the unique matching
summary attached (`some`), or `none` when the row's postal code matches no
summary key — and in particular the cardinality always equals that of `L`,
regardless of the summary's key coverage.  This rests on the aggregator's
keys being pairwise distinct, so the join cannot duplicate rows. -/
theorem merge_preserves_cardinality (L : List PropRow) (rs : List NameRecord) :
    leftMerge L (top_names_pivot rs)
      = L.map (fun p => (p, ((top_names_pivot rs).find?
          (fun e => keyMatches p.postal e.1)).map Prod.snd))
    ∧ (leftMerge L (top_names_pivot rs)).length = L.length := by
  have hn : ((top_names_pivot rs).map Prod.fst).Nodup := by
    rw [top_names_pivot_keys]; exact groupKeys_nodup rs
  have hmain : leftMerge L (top_names_pivot rs)
      = L.map (fun p => (p, ((top_names_pivot rs).find?
          (fun e => keyMatches p.postal e.1)).map Prod.snd)) := by
    induction L with
    | nil => rfl
    | cons p t ih =>
        rw [leftMerge_cons, ih, List.map_cons]
        rw [filter_keyMatches_nodup p.postal _ hn]
        cases hf : (top_names_pivot rs).find? (fun e => keyMatches p.postal e.1) with
        | none => rfl
        | some e => rfl
  exact ⟨hmain, by rw [hmain, List.length_map]⟩

/-! ### Claim C10 — summary keys are unique and exactly the occurring codes -/

/-- C10, confirmed.  The aggregator's summary has pairwise-distinct keys,
and its keys are exactly the (non-missing) postal codes carried by at least
one record of the input: no empty group is ever emitted.  This key
uniqueness is what makes the left join of C4 non-duplicating. -/
theorem pivot_keys_unique (rs : List NameRecord) :
    ((top_names_pivot rs).map Prod.fst).Nodup
    ∧ ∀ k : ℤ, k ∈ (top_names_pivot rs).map Prod.fst
        ↔ ∃ r ∈ rs, r.postal = some k := by
  rw [top_names_pivot_keys]
  exact ⟨groupKeys_nodup rs, fun k => mem_groupKeys⟩

/-! ### Claim C8 — grouping key of the name-popularity path -/

/-- C8, counterexample.  The claim states that name-frequency records are
grouped by the raw, pre-normalization postal value used verbatim, with no
normalization before the grouping step.  In `__main__`, step 2 applies
`PostalCodeFormatter.format_postal_codes` to the names table and step 3
groups the *formatted* table: the record with raw postal string
`"1000, 1020"` is normalized to the integer `1000` before grouping, and the
summary key is that normalized integer, not the raw string. -/
theorem grouping_key_is_normalized :
    formatNameRecord ⟨Val.str "1000, 1020".data, "Anna".data, 50⟩
      = .ok ⟨some 1000, "Anna".data, 50⟩
    ∧ namesPipeline [⟨Val.str "1000, 1020".data, "Anna".data, 50⟩]
      = .ok [(1000, "Anna (50)".data)] := by
  exact ⟨by decide, by decide⟩

/-- C8, amended.  Normalization *is* applied to the name-frequency records
before grouping: the pipeline is `format_postal_codes` followed by the
aggregator, and the summary keys are exactly the normalized (integer)
non-missing postal codes of the formatted records. -/
theorem names_normalized_before_grouping (raw : List RawNameRecord)
    (fmted : List NameRecord) (h : raw.mapM formatNameRecord = .ok fmted) :
    namesPipeline raw = .ok (top_names_pivot fmted)
    ∧ ∀ k : ℤ, k ∈ (top_names_pivot fmted).map Prod.fst
        ↔ ∃ r ∈ fmted, r.postal = some k := by
  constructor
  · rw [namesPipeline, h]
    rfl
  · rw [top_names_pivot_keys]
    exact fun k => mem_groupKeys

/-- C8, witness for the amended theorem. -/
theorem names_normalized_witness :
    ([⟨Val.str "1000, 1020".data, "Anna".data, 50⟩] : List RawNameRecord).mapM
        formatNameRecord = .ok [⟨some 1000, "Anna".data, 50⟩]
    ∧ namesPipeline [⟨Val.str "1000, 1020".data, "Anna".data, 50⟩]
      = .ok (top_names_pivot [⟨some 1000, "Anna".data, 50⟩]) :=
  ⟨by decide,
   (names_normalized_before_grouping _ [⟨some 1000, "Anna".data, 50⟩]
     (by decide)).1⟩

/-! ### Claim C6 — per-group top-5 selection and rendering -/

/-- C6, confirmed.  Every summary entry `(k, s)` renders exactly the group's
top-5 selection: the selection has `min 5 |group|` records (all of them when
the group has fewer than five), is ordered by frequency descending, breaks
frequency ties by original input order (for each frequency `f`, its selected
records are a prefix — in input order — of the group's records of frequency
`f`), consists of the highest frequencies (every non-selected record of the
group has frequency ≤ every selected one), and `s` joins the records as
`"<name> (<frequency>)"` with `", "` in that same order. -/
theorem aggregator_top5 (rs : List NameRecord) (k : ℤ) (s : List Char)
    (h : (k, s) ∈ top_names_pivot rs) :
    s = renderGroup (pyNlargest 5 (groupOf rs k))
    ∧ (pyNlargest 5 (groupOf rs k)).length = min 5 (groupOf rs k).length
    ∧ (pyNlargest 5 (groupOf rs k)).Sorted freqGe
    ∧ (∀ f : ℤ, (pyNlargest 5 (groupOf rs k)).filter (fun r => r.freq == f)
        <+: (groupOf rs k).filter (fun r => r.freq == f))
    ∧ List.Perm
        (pyNlargest 5 (groupOf rs k) ++ (sortByFreq (groupOf rs k)).drop 5)
        (groupOf rs k)
    ∧ (∀ a ∈ pyNlargest 5 (groupOf rs k),
        ∀ b ∈ (sortByFreq (groupOf rs k)).drop 5, b.freq ≤ a.freq) := by
  rw [top_names_pivot_eq] at h
  obtain ⟨k', _, hpair⟩ := List.mem_map.mp h
  rw [Prod.mk.injEq] at hpair
  obtain ⟨hk, hs⟩ := hpair
  subst hk
  refine ⟨hs.symm, pyNlargest_length 5 _, ?_, fun f => ?_, ?_, ?_⟩
  · exact List.Pairwise.sublist (List.take_sublist _ _) (sortByFreq_sorted _)
  · refine ⟨((sortByFreq (groupOf rs k')).drop 5).filter (fun r => r.freq == f), ?_⟩
    rw [pyNlargest, ← List.filter_append, List.take_append_drop,
      filter_freq_sortByFreq]
  · rw [pyNlargest, List.take_append_drop]
    exact sortByFreq_perm _
  · have hsorted := sortByFreq_sorted (groupOf rs k')
    rw [← List.take_append_drop 5 (sortByFreq (groupOf rs k'))] at hsorted
    exact fun a ha b hb =>
      (List.pairwise_append.mp hsorted).2.2 a ha b hb

/-- C6, witness on the specification's tie-break scenario. -/
theorem aggregator_top5_witness :
    (1000, "Ben (80), Cara (80), Anna (50)".data) ∈ top_names_pivot tieScenario
    ∧ "Ben (80), Cara (80), Anna (50)".data
        = renderGroup (pyNlargest 5 (groupOf tieScenario 1000))
    ∧ (pyNlargest 5 (groupOf tieScenario 1000)).length
        = min 5 (groupOf tieScenario 1000).length :=
  ⟨by decide,
   (aggregator_top5 tieScenario 1000 ("Ben (80), Cara (80), Anna (50)".data)
     (by decide)).1,
   (aggregator_top5 tieScenario 1000 ("Ben (80), Cara (80), Anna (50)".data)
     (by decide)).2.1⟩

end ImmoEliza
